import Mathlib

/-!
Verification of `verl/workers/sharding_manager/fsdp_vllm.py`
(`FSDPVLLMShardingManager`): the FSDP ↔ vLLM sharding manager of EasyR1.

The development shallowly embeds the two halves of the manager:

* the data-redistribution layer (`preprocess_data` / `postprocess_data`),
  modelled over association-list dictionaries whose values are row lists;
  the collective `all_gather` is modelled as the list of every group rank's
  local value, in group-rank order;
* the mode-transition controller (`__init__` / `__enter__` / `__exit__`),
  modelled as explicit state passing over the CUDA RNG register together
  with an event trace recording the side-effecting steps, and with
  explicit failure flags for the fallible steps of `__exit__`.
-/

namespace FSDPVLLM

/-- Association-list dictionary, the model of a Python `dict` /
`TensorDict` with string keys. -/
abbrev Dict (α : Type) := List (String × α)

/-- `d[k]` as a total function: `some v` for the first binding of `k`,
`none` when `k` is absent (Python's `KeyError`). -/
def dictLookup {α : Type} : Dict α → String → Option α
  | [], _ => none
  | (k', v) :: rest, k => if k' = k then some v else dictLookup rest k

/-- The model of a `DataProto`: a device tag for the tensor batch, the
tensor fields (`data.batch`) and the non-tensor fields
(`data.non_tensor_batch`).  Each field's value is its list of rows. -/
structure DataProto where
  device : Nat
  batch : Dict (List Int)
  non_tensor_batch : Dict (List Int)
deriving DecidableEq

/-- One gathered field: the concatenation, in group-rank order, of every
rank's value at key `k`; `none` as soon as some rank's dictionary lacks
`k`. -/
def gatherRow : List (Dict (List Int)) → String → Option (List Int)
  | [], _ => some []
  | d :: rest, k =>
    match dictLookup d k, gatherRow rest k with
    | some v, some vs => some (v ++ vs)
    | _, _ => none

/-- Key-wise gather over the calling rank's keys, in their order: the model
of `{k: concat([d[k] for d in all]) for k in own}`. -/
def gatherDict : List (Dict (List Int)) → Dict (List Int) → Option (Dict (List Int))
  | _, [] => some []
  | all, (k, _) :: rest =>
    match gatherRow all k, gatherDict all rest with
    | some v, some gs => some ((k, v) :: gs)
    | _, _ => none

/-- Modelled from the spec: `VF.allgather_dict_tensors` (the repository's
`verl/utils/torch_functional.py`, outside `src/`) all-gathers each tensor
field along the leading (batch) dimension across every rank of the
tensor-parallel group, contributions in group-rank order.  `all` is the
list of every group rank's tensor dictionary, `own` the calling rank's. -/
def allgather_dict_tensors (all : List (Dict (List Int))) (own : Dict (List Int)) :
    Option (Dict (List Int)) :=
  gatherDict all own

/-- From the source (`preprocess_data`, the non-tensor half):
`torch.distributed.all_gather_object` yields every rank's
`non_tensor_batch` in group-rank order, and the comprehension
`{k: np.concatenate([d[k] for d in all_non_tensor_batch]) for k in
data.non_tensor_batch}` concatenates them key-wise over the calling
rank's own keys, raising `KeyError` (here `none`) when some gathered
dictionary lacks one of those keys. -/
def all_gather_non_tensor (all : List (Dict (List Int))) (own : Dict (List Int)) :
    Option (Dict (List Int)) :=
  gatherDict all own

/-- `FSDPVLLMShardingManager.preprocess_data`.  The tensor batch is moved
to the CUDA device, all-gathered over the tensor-parallel group, and moved
back to its previous device (so the device tag round-trips); the
non-tensor batch is all-gathered as objects and concatenated key-wise.
`all` holds every group rank's `DataProto` in group-rank order, with the
calling rank's own data among them. -/
def preprocess_data (all : List DataProto) (own : DataProto) : Option DataProto :=
  match allgather_dict_tensors (all.map (·.batch)) own.batch with
  | none => none
  | some b =>
    match all_gather_non_tensor (all.map (·.non_tensor_batch)) own.non_tensor_batch with
    | none => none
    | some nb => some { device := own.device, batch := b, non_tensor_batch := nb }

/-- Rows `[i·(len/T), (i+1)·(len/T))` of a field: one contiguous chunk of
the `T`-way split. -/
def sliceChunk (T i : Nat) (xs : List Int) : List Int :=
  (xs.drop (i * (xs.length / T))).take (xs.length / T)

/-- Modelled from the spec: `DataProto.chunk` (the repository's
`verl/protocol.py`, outside `src/`) partitions a batch into `T` contiguous
equal-size chunks, chunk `i` holding rows `[i·N/T, (i+1)·N/T)` of every
field. -/
def DataProto.chunkAt (d : DataProto) (T i : Nat) : DataProto :=
  { device := d.device
    batch := d.batch.map (fun kv => (kv.1, sliceChunk T i kv.2))
    non_tensor_batch := d.non_tensor_batch.map (fun kv => (kv.1, sliceChunk T i kv.2)) }

/-- `FSDPVLLMShardingManager.postprocess_data`: for tensor-parallel size
`tp_size > 1`, chunk the batch `tp_size`-ways and keep the chunk indexed
by `dp_rank % tp_size` (`dp_rank = dist.get_rank()`, the global rank);
for `tp_size == 1` return the batch unchanged. -/
def postprocess_data (tp_size dp_rank : Nat) (d : DataProto) : DataProto :=
  if tp_size > 1 then d.chunkAt tp_size (dp_rank % tp_size) else d

/-- A two-row batch held by group rank 0 in the worked examples. -/
def exampleA : DataProto := ⟨0, [("x", [0, 1])], [("y", [10, 11])]⟩

/-- A two-row batch held by group rank 1 in the worked examples. -/
def exampleB : DataProto := ⟨0, [("x", [2, 3])], [("y", [12, 13])]⟩

/-- The gathered batch of `exampleA` and `exampleB` over a size-2 group. -/
def exampleGathered : DataProto := ⟨0, [("x", [0, 1, 2, 3])], [("y", [10, 11, 12, 13])]⟩

/-! ## Mode-transition controller: RNG state machine and event traces -/

/-- The accelerator-side mutable state the manager touches: the live CUDA
RNG register (`torch.cuda.get_rng_state` / `set_rng_state`).  A register
value is an opaque word, modelled as a `Nat`. -/
structure World where
  rng : Nat
deriving DecidableEq

/-- The generation seed computed in `__init__`:
`gen_dp_rank + 1000`, a deterministic function of the data-parallel
unit's local rank plus a fixed offset. -/
def gen_seed (gen_dp_rank : Nat) : Nat := gen_dp_rank + 1000

/-- `torch.cuda.manual_seed`: the register state deterministically
derived from the seed.  The external library's derivation is opaque;
it is modelled as the seed value itself (distinct seeds give distinct
states). -/
def manual_seed_state (seed : Nat) : Nat := seed

/-- The manager's own fields: `device_mesh` (`some` the `dp` local rank
when a mesh is configured, `none` otherwise), `torch_random_states`, and
`gen_random_states` (`None` when no mesh is configured). -/
structure Manager where
  device_mesh : Option Nat
  torch_random_states : Nat
  gen_random_states : Option Nat
deriving DecidableEq

/-- `FSDPVLLMShardingManager.__init__` (its RNG part): snapshot the live
register as `torch_random_states`; when a device mesh is configured,
install `manual_seed(gen_dp_rank + 1000)`, snapshot that register as
`gen_random_states`, and restore the training snapshot as the live
register; otherwise leave `gen_random_states` unset. -/
def init_manager (dm : Option Nat) (w : World) : Manager × World :=
  let torch_rs := w.rng
  match dm with
  | some u =>
    let w1 : World := { rng := manual_seed_state (gen_seed u) }
    let gen_rs := w1.rng
    let w2 : World := { rng := torch_rs }
    ({ device_mesh := dm, torch_random_states := torch_rs, gen_random_states := some gen_rs }, w2)
  | none =>
    ({ device_mesh := dm, torch_random_states := torch_rs, gen_random_states := none }, w)

/-- The observable side-effecting steps of `__enter__` / `__exit__`, in
program order, as trace events. -/
inductive Event where
  /-- `actor_weights = self.module.state_dict()`, carrying the parameter
  names of the extracted mapping. -/
  | stateDict (names : List String)
  /-- `self.inference_engine.wake_up()`. -/
  | wakeUp
  /-- `load_dtensor_weights(actor_weights, ...)`, carrying the parameter
  names of the mapping handed over. -/
  | loadWeights (names : List String)
  /-- `del actor_weights`. -/
  | delWeights
  /-- `torch.cuda.empty_cache()`. -/
  | emptyCache
  /-- the guarded RNG switch: snapshot the live register into one slot and
  install the other slot as the live register. -/
  | rngSwap
  /-- `self.inference_engine.sleep(level)`. -/
  | sleep (level : Nat)
  /-- `self.module.train()`. -/
  | trainMode
deriving DecidableEq

/-- `FSDPVLLMShardingManager.__enter__`: extract the state dict, wake the
engine, hand the extracted mapping (exactly its parameter names, in
order) to the weight loader, drop the mapping, empty the cache; then,
when a device mesh is configured, snapshot the live register into
`torch_random_states` and install `gen_random_states` as the live
register.  Returns the updated manager, the updated world, and the event
trace in program order. -/
def enter_run (weights : Dict Int) (m : Manager) (w : World) :
    Manager × World × List Event :=
  let names := weights.map Prod.fst
  let evs := [Event.stateDict names, Event.wakeUp, Event.loadWeights names,
    Event.delWeights, Event.emptyCache]
  match m.device_mesh with
  | some _ =>
    ({ m with torch_random_states := w.rng },
      { rng := m.gen_random_states.getD 0 }, evs ++ [Event.rngSwap])
  | none => (m, w, evs)

/-- Result of one `__exit__` call: whether an exception propagated, the
manager and world after the statements that did run, and the trace of the
steps that completed. -/
structure ExitOutcome where
  raised : Bool
  manager : Manager
  world : World
  events : List Event
deriving DecidableEq

/-- `FSDPVLLMShardingManager.__exit__` with explicit failure flags for its
three fallible calls (`inference_engine.sleep(level=1)`, `module.train()`,
`torch.cuda.empty_cache()`).  The body is a plain statement sequence: a
raising statement aborts the call there and the remaining statements —
including the RNG restore — do not run.  On the non-raising path, when a
device mesh is configured, the live register is snapshotted into
`gen_random_states` and `torch_random_states` is installed as the live
register. -/
def exit_run (sleepFails trainFails cacheFails : Bool) (m : Manager) (w : World) :
    ExitOutcome :=
  if sleepFails then ⟨true, m, w, []⟩
  else if trainFails then ⟨true, m, w, [Event.sleep 1]⟩
  else if cacheFails then ⟨true, m, w, [Event.sleep 1, Event.trainMode]⟩
  else
    let evs := [Event.sleep 1, Event.trainMode, Event.emptyCache]
    match m.device_mesh with
    | some _ =>
      ⟨false, { m with gen_random_states := some w.rng },
        { rng := m.torch_random_states }, evs ++ [Event.rngSwap]⟩
    | none => ⟨false, m, w, evs⟩

/-- One complete, non-failing enter/exit cycle with no random draws taken
while the generation state is live. -/
def cycle (weights : Dict Int) (mw : Manager × World) : Manager × World :=
  let r := enter_run weights mw.1 mw.2
  let out := exit_run false false false r.1 r.2.1
  (out.manager, out.world)

/-- `n` complete enter/exit cycles. -/
def cycles (weights : Dict Int) : Nat → Manager × World → Manager × World
  | 0, mw => mw
  | n + 1, mw => cycles weights n (cycle weights mw)

/-! ## Helper lemmas on gathered and chunked row lists -/

lemma flatten_length_uniform (N : Nat) :
    ∀ (parts : List (List Int)), (∀ x ∈ parts, x.length = N) →
      parts.flatten.length = parts.length * N
  | [], _ => by simp
  | a :: parts, h => by
    have ha := h a (List.mem_cons_self a parts)
    have ih := flatten_length_uniform N parts (fun x hx => h x (List.mem_cons_of_mem a hx))
    simp [ha, ih, Nat.succ_mul, Nat.add_comm]

lemma drop_eq_cons_of_getElem? {α : Type} :
    ∀ (l : List α) (p : Nat) (x : α), l[p]? = some x → l.drop p = x :: l.drop (p + 1)
  | [], p, x, h => by simp at h
  | a :: l, 0, x, h => by simp at h; simp [h]
  | a :: l, p + 1, x, h => by
    simpa using drop_eq_cons_of_getElem? l p x (by simpa using h)

lemma flatten_drop_uniform (N : Nat) :
    ∀ (parts : List (List Int)) (p : Nat), p ≤ parts.length →
      (∀ x ∈ parts, x.length = N) →
      parts.flatten.drop (p * N) = (parts.drop p).flatten
  | _, 0, _, _ => by simp
  | [], p + 1, hp, _ => by simp at hp
  | a :: parts, p + 1, hp, hl => by
    have ha := hl a (List.mem_cons_self a parts)
    have ih := flatten_drop_uniform N parts p (by simpa using hp)
      (fun x hx => hl x (List.mem_cons_of_mem a hx))
    have harith : (p + 1) * N = a.length + p * N := by rw [ha]; ring
    simp only [List.flatten_cons, List.drop_succ_cons]
    rw [harith, List.drop_append, ih]

lemma slice_flatten_uniform (parts : List (List Int)) (N p : Nat) (x : List Int)
    (hp : parts[p]? = some x) (hl : ∀ y ∈ parts, y.length = N) :
    sliceChunk parts.length p parts.flatten = x := by
  have hplt : p < parts.length := by
    by_contra hge
    rw [List.getElem?_eq_none (Nat.le_of_not_lt hge)] at hp
    exact Option.noConfusion hp
  have hxmem : x ∈ parts := List.getElem?_mem hp
  have hxlen : x.length = N := hl x hxmem
  have hlen := flatten_length_uniform N parts hl
  have hdiv : parts.flatten.length / parts.length = N := by
    rw [hlen, Nat.mul_div_cancel_left N (Nat.lt_of_le_of_lt (Nat.zero_le p) hplt)]
  unfold sliceChunk
  rw [hdiv, flatten_drop_uniform N parts p (Nat.le_of_lt hplt) hl,
    drop_eq_cons_of_getElem? parts p x hp, List.flatten_cons, ← hxlen, List.take_left]

lemma gatherRow_eq_flatten (k : String) :
    ∀ (all : List (Dict (List Int))), (∀ d ∈ all, (dictLookup d k).isSome) →
      gatherRow all k = some ((all.map (fun d => (dictLookup d k).getD [])).flatten)
  | [], _ => rfl
  | d :: rest, h => by
    obtain ⟨v, hv⟩ := Option.isSome_iff_exists.mp (h d (List.mem_cons_self d rest))
    have ih := gatherRow_eq_flatten k rest (fun d' hd' => h d' (List.mem_cons_of_mem d hd'))
    simp [gatherRow, hv, ih]

lemma gatherDict_eq_map (all : List (Dict (List Int))) :
    ∀ (own : Dict (List Int)), (∀ kv ∈ own, ∀ d ∈ all, (dictLookup d kv.1).isSome) →
      gatherDict all own =
        some (own.map (fun kv => (kv.1, (all.map (fun d => (dictLookup d kv.1).getD [])).flatten)))
  | [], _ => rfl
  | (k, v) :: rest, h => by
    have hk := gatherRow_eq_flatten k all (h (k, v) (List.mem_cons_self _ rest))
    have ih := gatherDict_eq_map all rest (fun kv hkv => h kv (List.mem_cons_of_mem _ hkv))
    simp [gatherDict, hk, ih]

lemma dictLookup_of_nodup {α : Type} :
    ∀ (d : Dict α), (d.map Prod.fst).Nodup → ∀ kv ∈ d, dictLookup d kv.1 = some kv.2
  | [], _, kv, hm => by simp at hm
  | (k0, v0) :: rest, hnd, kv, hm => by
    rcases List.mem_cons.mp hm with h | h
    · subst h; simp [dictLookup]
    · have hne : k0 ≠ kv.1 := by
        intro he
        have : kv.1 ∈ rest.map Prod.fst := List.mem_map_of_mem Prod.fst h
        rw [← he] at this
        exact (List.nodup_cons.mp hnd).1 this
      have ih := dictLookup_of_nodup rest (List.nodup_cons.mp hnd).2 kv h
      simp [dictLookup, hne, ih]

lemma dictLookup_isSome_of_mem_keys {α : Type} :
    ∀ (d : Dict α) (k : String), k ∈ d.map Prod.fst → (dictLookup d k).isSome
  | [], k, hm => by simp at hm
  | (k0, v0) :: rest, k, hm => by
    by_cases he : k0 = k
    · simp [dictLookup, he]
    · have : k ∈ rest.map Prod.fst := by
        simp only [List.map_cons, List.mem_cons] at hm
        rcases hm with h | h
        · exact absurd h.symm he
        · exact h
      simp [dictLookup, he, dictLookup_isSome_of_mem_keys rest k this]

lemma gatherDict_keys (all : List (Dict (List Int))) :
    ∀ (own res : Dict (List Int)), gatherDict all own = some res →
      res.map Prod.fst = own.map Prod.fst
  | [], res, h => by simp [gatherDict] at h; simp [← h]
  | (k, v) :: rest, res, h => by
    simp only [gatherDict] at h
    cases hr : gatherRow all k with
    | none => rw [hr] at h; exact absurd h (by simp)
    | some vr =>
      cases hg : gatherDict all rest with
      | none => rw [hr, hg] at h; exact absurd h (by simp)
      | some gs =>
        rw [hr, hg] at h
        simp only [Option.some.injEq] at h
        subst h
        simpa using gatherDict_keys all rest gs hg

lemma gatherRow_none_of_missing (k : String) :
    ∀ (all : List (Dict (List Int))), (∃ d ∈ all, dictLookup d k = none) →
      gatherRow all k = none
  | [], h => by simp at h
  | d :: rest, h => by
    obtain ⟨d', hd', hnone⟩ := h
    rcases List.mem_cons.mp hd' with he | hm
    · subst he; simp [gatherRow, hnone]
    · have := gatherRow_none_of_missing k rest ⟨d', hm, hnone⟩
      cases hl : dictLookup d k <;> simp [gatherRow, hl, this]

lemma gatherDict_none_of_missing (all : List (Dict (List Int))) :
    ∀ (own : Dict (List Int)),
      (∃ kv ∈ own, ∃ d ∈ all, dictLookup d kv.1 = none) →
      gatherDict all own = none
  | [], h => by simp at h
  | (k, v) :: rest, h => by
    obtain ⟨kv, hkv, d, hd, hnone⟩ := h
    rcases List.mem_cons.mp hkv with he | hm
    · have : gatherRow all k = none := by
        apply gatherRow_none_of_missing
        exact ⟨d, hd, by subst he; exact hnone⟩
      simp [gatherDict, this]
    · have := gatherDict_none_of_missing all rest ⟨kv, hm, d, hd, hnone⟩
      cases hr : gatherRow all k <;> simp [gatherDict, hr, this]

/-- `preprocess_data` in closed form: when every group rank's dictionaries
carry the calling rank's keys, the result maps each of the calling rank's
fields to the concatenation, in group-rank order, of every rank's value
at that key. -/
lemma preprocess_data_eq (all : List DataProto) (own : DataProto)
    (hb : ∀ d ∈ all, ∀ kv ∈ own.batch, (dictLookup d.batch kv.1).isSome)
    (hn : ∀ d ∈ all, ∀ kv ∈ own.non_tensor_batch, (dictLookup d.non_tensor_batch kv.1).isSome) :
    preprocess_data all own = some
      { device := own.device
        batch := own.batch.map (fun kv =>
          (kv.1, (all.map (fun d => (dictLookup d.batch kv.1).getD [])).flatten))
        non_tensor_batch := own.non_tensor_batch.map (fun kv =>
          (kv.1, (all.map (fun d => (dictLookup d.non_tensor_batch kv.1).getD [])).flatten)) } := by
  have hbs : ∀ kv ∈ own.batch, ∀ d ∈ all.map (·.batch), (dictLookup d kv.1).isSome := by
    intro kv hkv d hd
    obtain ⟨d', hd', rfl⟩ := List.mem_map.mp hd
    exact hb d' hd' kv hkv
  have hns : ∀ kv ∈ own.non_tensor_batch, ∀ d ∈ all.map (·.non_tensor_batch),
      (dictLookup d kv.1).isSome := by
    intro kv hkv d hd
    obtain ⟨d', hd', rfl⟩ := List.mem_map.mp hd
    exact hn d' hd' kv hkv
  have h1 := gatherDict_eq_map (all.map (·.batch)) own.batch hbs
  have h2 := gatherDict_eq_map (all.map (·.non_tensor_batch)) own.non_tensor_batch hns
  simp only [List.map_map] at h1 h2
  simp only [preprocess_data, allgather_dict_tensors, all_gather_non_tensor, h1, h2,
    Function.comp_def]

/-- Chunk `p` of a `T`-rank gathered dictionary recovers rank `p`'s own
dictionary, when rank `p`'s key list has no duplicates and every rank
contributes `N` rows per key. -/
lemma chunk_gathered_dict (allD : List (Dict (List Int))) (own : Dict (List Int))
    (T N p : Nat) (hlen : allD.length = T) (hown : allD[p]? = some own)
    (hnd : (own.map Prod.fst).Nodup)
    (h : ∀ d ∈ allD, ∀ kv ∈ own,
      (dictLookup d kv.1).isSome ∧ ((dictLookup d kv.1).getD []).length = N) :
    (own.map (fun kv => (kv.1, (allD.map (fun d => (dictLookup d kv.1).getD [])).flatten))).map
        (fun kv => (kv.1, sliceChunk T p kv.2)) = own := by
  rw [List.map_map]
  have hpoint : ∀ kv ∈ own,
      ((fun kv : String × List Int => (kv.1, sliceChunk T p kv.2)) ∘
        (fun kv : String × List Int =>
          (kv.1, (allD.map (fun d => (dictLookup d kv.1).getD [])).flatten))) kv = id kv := by
    intro kv hkv
    have hlenmap : (allD.map (fun d => (dictLookup d kv.1).getD [])).length = T := by
      rw [List.length_map, hlen]
    have hpart : (allD.map (fun d => (dictLookup d kv.1).getD []))[p]? =
        some ((dictLookup own kv.1).getD []) := by
      rw [List.getElem?_map, hown]; rfl
    have hownv : dictLookup own kv.1 = some kv.2 := dictLookup_of_nodup own hnd kv hkv
    have huni : ∀ y ∈ allD.map (fun d => (dictLookup d kv.1).getD []), y.length = N := by
      intro y hy
      obtain ⟨d, hd, rfl⟩ := List.mem_map.mp hy
      exact (h d hd kv hkv).2
    have hslice := slice_flatten_uniform (allD.map (fun d => (dictLookup d kv.1).getD []))
      N p ((dictLookup own kv.1).getD []) hpart huni
    rw [hlenmap] at hslice
    simp only [Function.comp_apply, hslice, hownv, Option.getD_some, id_eq]
  rw [List.map_congr_left hpoint, List.map_id]

/-- Splitting off the last element of a list: when `x` does not occur in
`L`, the only way to write `L ++ [x]` as `pre ++ x :: suf` is `pre = L`,
`suf = []`. -/
lemma append_singleton_eq {α : Type} :
    ∀ (L pre suf : List α) (x : α), x ∉ L → L ++ [x] = pre ++ x :: suf →
      pre = L ∧ suf = []
  | [], pre, suf, x, _, h => by
    cases pre with
    | nil =>
      simp only [List.nil_append, List.cons.injEq] at h
      exact ⟨rfl, h.2.symm⟩
    | cons a pre' =>
      simp only [List.nil_append, List.cons_append, List.cons.injEq] at h
      exact absurd h.2 (by simp)
  | b :: L', pre, suf, x, hx, h => by
    cases pre with
    | nil =>
      simp only [List.cons_append, List.nil_append, List.cons.injEq] at h
      exact absurd h.1 (fun he => hx (he ▸ List.mem_cons_self b L'))
    | cons a pre' =>
      simp only [List.cons_append, List.cons.injEq] at h
      obtain ⟨hpre, hsuf⟩ := append_singleton_eq L' pre' suf x
        (fun hm => hx (List.mem_cons_of_mem b hm)) h.2
      exact ⟨by rw [h.1, hpre], hsuf⟩

/-! ## Claim theorems -/

/-- C1: For every tensor-parallel size `T ∈ {1, 2, 4}` and every batch of
`N` rows per rank, applying `postprocess_data` to the result of
`preprocess_data` (the inference engine modelled as the identity) yields a
batch of exactly `N` rows equal to the original: the calling process, at
position `r % T` of the group with global rank `r`, recovers exactly the
rows it originally contributed. -/
theorem c1_preprocess_postprocess_roundtrip (T N r p : Nat) (all : List DataProto)
    (own res : DataProto)
    (hT : T = 1 ∨ T = 2 ∨ T = 4)
    (hlen : all.length = T)
    (hp : p = r % T)
    (hown : all[p]? = some own)
    (hndb : (own.batch.map Prod.fst).Nodup)
    (hndn : (own.non_tensor_batch.map Prod.fst).Nodup)
    (hb : ∀ d ∈ all, ∀ kv ∈ own.batch,
      (dictLookup d.batch kv.1).isSome ∧ ((dictLookup d.batch kv.1).getD []).length = N)
    (hn : ∀ d ∈ all, ∀ kv ∈ own.non_tensor_batch,
      (dictLookup d.non_tensor_batch kv.1).isSome ∧
        ((dictLookup d.non_tensor_batch kv.1).getD []).length = N)
    (hres : preprocess_data all own = some res) :
    postprocess_data T r res = own ∧
    (∀ kv ∈ own.batch, kv.2.length = N) ∧
    (∀ kv ∈ own.non_tensor_batch, kv.2.length = N) := by
  have hT0 : 0 < T := by rcases hT with h | h | h <;> omega
  have hple : p < T := by rw [hp]; exact Nat.mod_lt r hT0
  have heq := preprocess_data_eq all own
    (fun d hd kv hkv => (hb d hd kv hkv).1)
    (fun d hd kv hkv => (hn d hd kv hkv).1)
  rw [heq] at hres
  injection hres with hres'
  subst hres'
  have hmem : own ∈ all := List.getElem?_mem hown
  have hrowb : ∀ kv ∈ own.batch, kv.2.length = N := by
    intro kv hkv
    have := (hb own hmem kv hkv).2
    rwa [dictLookup_of_nodup own.batch hndb kv hkv, Option.getD_some] at this
  have hrown : ∀ kv ∈ own.non_tensor_batch, kv.2.length = N := by
    intro kv hkv
    have := (hn own hmem kv hkv).2
    rwa [dictLookup_of_nodup own.non_tensor_batch hndn kv hkv, Option.getD_some] at this
  refine ⟨?_, hrowb, hrown⟩
  by_cases h1 : T = 1
  · subst h1
    have hall : all = [own] := by
      cases all with
      | nil => simp at hlen
      | cons a rest =>
        cases rest with
        | nil =>
          have hp0 : p = 0 := by omega
          subst hp0
          simp only [List.getElem?_cons_zero, Option.some.injEq] at hown
          rw [hown]
        | cons b r2 => simp at hlen
    rw [hall]
    simp only [postprocess_data, gt_iff_lt, lt_self_iff_false, if_false]
    have hb1 : own.batch.map (fun kv =>
        (kv.1, (List.map (fun d : DataProto => (dictLookup d.batch kv.1).getD []) [own]).flatten))
        = own.batch := by
      have hpoint : ∀ kv ∈ own.batch, (fun kv : String × List Int =>
          (kv.1, (List.map (fun d : DataProto =>
            (dictLookup d.batch kv.1).getD []) [own]).flatten)) kv = id kv := by
        intro kv hkv
        simp [dictLookup_of_nodup own.batch hndb kv hkv]
      rw [List.map_congr_left hpoint, List.map_id]
    have hn1 : own.non_tensor_batch.map (fun kv =>
        (kv.1, (List.map (fun d : DataProto =>
          (dictLookup d.non_tensor_batch kv.1).getD []) [own]).flatten))
        = own.non_tensor_batch := by
      have hpoint : ∀ kv ∈ own.non_tensor_batch, (fun kv : String × List Int =>
          (kv.1, (List.map (fun d : DataProto =>
            (dictLookup d.non_tensor_batch kv.1).getD []) [own]).flatten)) kv = id kv := by
        intro kv hkv
        simp [dictLookup_of_nodup own.non_tensor_batch hndn kv hkv]
      rw [List.map_congr_left hpoint, List.map_id]
    rw [hb1, hn1]
  · have hT1 : 1 < T := by omega
    have hchb := chunk_gathered_dict (all.map (·.batch)) own.batch T N p
      (by rw [List.length_map, hlen])
      (by rw [List.getElem?_map, hown]; rfl)
      hndb
      (by
        intro d hd kv hkv
        obtain ⟨d', hd', rfl⟩ := List.mem_map.mp hd
        exact hb d' hd' kv hkv)
    have hchn := chunk_gathered_dict (all.map (·.non_tensor_batch)) own.non_tensor_batch T N p
      (by rw [List.length_map, hlen])
      (by rw [List.getElem?_map, hown]; rfl)
      hndn
      (by
        intro d hd kv hkv
        obtain ⟨d', hd', rfl⟩ := List.mem_map.mp hd
        exact hn d' hd' kv hkv)
    simp only [List.map_map, Function.comp_def] at hchb hchn
    simp only [postprocess_data, gt_iff_lt, hT1, if_true, DataProto.chunkAt, ← hp,
      List.map_map, Function.comp_def]
    rw [hchb, hchn]

/-- C1 witness: group of size `T = 2`, two rows per rank, calling process
with global rank `r = 1` at group position `1` recovers its own batch. -/
theorem c1_witness :
    postprocess_data 2 1 exampleGathered = exampleB ∧
    (∀ kv ∈ exampleB.batch, kv.2.length = 2) ∧
    (∀ kv ∈ exampleB.non_tensor_batch, kv.2.length = 2) :=
  c1_preprocess_postprocess_roundtrip 2 2 1 1 [exampleA, exampleB] exampleB exampleGathered
    (Or.inr (Or.inl rfl)) (by decide) (by decide) (by decide) (by decide) (by decide)
    (by decide) (by decide) (by decide)

/-- C3: `preprocess_data` returns a batch whose tensor fields and
non-tensor fields each carry `T` times the original `N` rows, every field
being the concatenation of the group ranks' contributions in group-rank
order (so tensor and non-tensor rows stay aligned by index), with the
original field keys and the original device placement; for `T = 1` the
gather path still runs and the batch is unchanged. -/
theorem c3_preprocess_gather (T N : Nat) (all : List DataProto) (own res : DataProto)
    (hlen : all.length = T)
    (hndb : (own.batch.map Prod.fst).Nodup)
    (hndn : (own.non_tensor_batch.map Prod.fst).Nodup)
    (hb : ∀ d ∈ all, ∀ kv ∈ own.batch,
      (dictLookup d.batch kv.1).isSome ∧ ((dictLookup d.batch kv.1).getD []).length = N)
    (hn : ∀ d ∈ all, ∀ kv ∈ own.non_tensor_batch,
      (dictLookup d.non_tensor_batch kv.1).isSome ∧
        ((dictLookup d.non_tensor_batch kv.1).getD []).length = N)
    (h1own : T = 1 → all = [own])
    (hres : preprocess_data all own = some res) :
    res.device = own.device ∧
    res.batch = own.batch.map (fun kv =>
      (kv.1, (all.map (fun d => (dictLookup d.batch kv.1).getD [])).flatten)) ∧
    res.non_tensor_batch = own.non_tensor_batch.map (fun kv =>
      (kv.1, (all.map (fun d => (dictLookup d.non_tensor_batch kv.1).getD [])).flatten)) ∧
    (∀ kv ∈ res.batch, kv.2.length = T * N) ∧
    (∀ kv ∈ res.non_tensor_batch, kv.2.length = T * N) ∧
    res.batch.map Prod.fst = own.batch.map Prod.fst ∧
    res.non_tensor_batch.map Prod.fst = own.non_tensor_batch.map Prod.fst ∧
    (T = 1 → res = own) := by
  have heq := preprocess_data_eq all own
    (fun d hd kv hkv => (hb d hd kv hkv).1)
    (fun d hd kv hkv => (hn d hd kv hkv).1)
  rw [heq] at hres
  injection hres with hres'
  subst hres'
  refine ⟨rfl, rfl, rfl, ?_, ?_, ?_, ?_, ?_⟩
  · intro kv hkv
    obtain ⟨kv0, hkv0, rfl⟩ := List.mem_map.mp hkv
    have huni : ∀ y ∈ all.map (fun d => (dictLookup d.batch kv0.1).getD []), y.length = N := by
      intro y hy
      obtain ⟨d, hd, rfl⟩ := List.mem_map.mp hy
      exact (hb d hd kv0 hkv0).2
    have := flatten_length_uniform N (all.map (fun d => (dictLookup d.batch kv0.1).getD [])) huni
    simpa [hlen] using this
  · intro kv hkv
    obtain ⟨kv0, hkv0, rfl⟩ := List.mem_map.mp hkv
    have huni : ∀ y ∈ all.map (fun d => (dictLookup d.non_tensor_batch kv0.1).getD []),
        y.length = N := by
      intro y hy
      obtain ⟨d, hd, rfl⟩ := List.mem_map.mp hy
      exact (hn d hd kv0 hkv0).2
    have := flatten_length_uniform N
      (all.map (fun d => (dictLookup d.non_tensor_batch kv0.1).getD [])) huni
    simpa [hlen] using this
  · simp [List.map_map, Function.comp_def]
  · simp [List.map_map, Function.comp_def]
  · intro h1
    rw [h1own h1]
    have hb1 : own.batch.map (fun kv =>
        (kv.1, (List.map (fun d : DataProto => (dictLookup d.batch kv.1).getD []) [own]).flatten))
        = own.batch := by
      have hpoint : ∀ kv ∈ own.batch, (fun kv : String × List Int =>
          (kv.1, (List.map (fun d : DataProto =>
            (dictLookup d.batch kv.1).getD []) [own]).flatten)) kv = id kv := by
        intro kv hkv
        simp [dictLookup_of_nodup own.batch hndb kv hkv]
      rw [List.map_congr_left hpoint, List.map_id]
    have hn1 : own.non_tensor_batch.map (fun kv =>
        (kv.1, (List.map (fun d : DataProto =>
          (dictLookup d.non_tensor_batch kv.1).getD []) [own]).flatten))
        = own.non_tensor_batch := by
      have hpoint : ∀ kv ∈ own.non_tensor_batch, (fun kv : String × List Int =>
          (kv.1, (List.map (fun d : DataProto =>
            (dictLookup d.non_tensor_batch kv.1).getD []) [own]).flatten)) kv = id kv := by
        intro kv hkv
        simp [dictLookup_of_nodup own.non_tensor_batch hndn kv hkv]
      rw [List.map_congr_left hpoint, List.map_id]
    rw [hb1, hn1]

/-- C3 witness: gathering the two example batches over a size-2 group
doubles the two rows of every field, keeps keys and device, and the
gathered fields are the rank-order concatenations. -/
theorem c3_witness :
    exampleGathered.device = exampleB.device ∧
    exampleGathered.batch = exampleB.batch.map (fun kv =>
      (kv.1, (([exampleA, exampleB] : List DataProto).map
        (fun d => (dictLookup d.batch kv.1).getD [])).flatten)) ∧
    exampleGathered.non_tensor_batch = exampleB.non_tensor_batch.map (fun kv =>
      (kv.1, (([exampleA, exampleB] : List DataProto).map
        (fun d => (dictLookup d.non_tensor_batch kv.1).getD [])).flatten)) ∧
    (∀ kv ∈ exampleGathered.batch, kv.2.length = 2 * 2) ∧
    (∀ kv ∈ exampleGathered.non_tensor_batch, kv.2.length = 2 * 2) ∧
    exampleGathered.batch.map Prod.fst = exampleB.batch.map Prod.fst ∧
    exampleGathered.non_tensor_batch.map Prod.fst = exampleB.non_tensor_batch.map Prod.fst ∧
    (2 = 1 → exampleGathered = exampleB) :=
  c3_preprocess_gather 2 2 [exampleA, exampleB] exampleB exampleGathered
    (by decide) (by decide) (by decide) (by decide) (by decide) (by decide) (by decide)

/-- C4: on a batch of `N` rows with `T ∣ N`, `postprocess_data` with
`tp_size = T > 1` keeps exactly the contiguous chunk
`[(r % T)·(N/T), (r % T + 1)·(N/T))` of every field — the chunk indexed by
the caller's global rank modulo `T` — each returned field having `N / T`
rows; with `T = 1` it returns the batch unchanged. -/
theorem c4_postprocess_select (T N r : Nat) (d : DataProto)
    (hT0 : 0 < T) (hdvd : N % T = 0)
    (hb : ∀ kv ∈ d.batch, kv.2.length = N)
    (hn : ∀ kv ∈ d.non_tensor_batch, kv.2.length = N) :
    postprocess_data 1 r d = d ∧
    (1 < T → postprocess_data T r d =
      { device := d.device
        batch := d.batch.map (fun kv =>
          (kv.1, (kv.2.drop ((r % T) * (N / T))).take (N / T)))
        non_tensor_batch := d.non_tensor_batch.map (fun kv =>
          (kv.1, (kv.2.drop ((r % T) * (N / T))).take (N / T))) }) ∧
    (∀ kv ∈ (postprocess_data T r d).batch, kv.2.length = N / T) ∧
    (∀ kv ∈ (postprocess_data T r d).non_tensor_batch, kv.2.length = N / T) := by
  have hNT : T * (N / T) = N := Nat.mul_div_cancel' (Nat.dvd_of_mod_eq_zero hdvd)
  have hfit : ∀ i, i < T → i * (N / T) + N / T ≤ N := by
    intro i hi
    calc i * (N / T) + N / T = (i + 1) * (N / T) := by ring
      _ ≤ T * (N / T) := Nat.mul_le_mul_right (N / T) (Nat.succ_le_of_lt hi)
      _ = N := hNT
  have hslice : ∀ xs : List Int, xs.length = N →
      sliceChunk T (r % T) xs = (xs.drop ((r % T) * (N / T))).take (N / T) := by
    intro xs hxs
    unfold sliceChunk
    rw [hxs]
  have hslicelen : ∀ xs : List Int, xs.length = N → (sliceChunk T (r % T) xs).length = N / T := by
    intro xs hxs
    unfold sliceChunk
    rw [hxs]
    have := hfit (r % T) (Nat.mod_lt r hT0)
    simp only [List.length_take, List.length_drop, hxs]
    omega
  refine ⟨by simp [postprocess_data], ?_, ?_, ?_⟩
  · intro hT1
    simp only [postprocess_data, gt_iff_lt, hT1, if_true, DataProto.chunkAt]
    have hmb := List.map_congr_left (l := d.batch)
      (f := fun kv : String × List Int => (kv.1, sliceChunk T (r % T) kv.2))
      (g := fun kv : String × List Int =>
        (kv.1, (kv.2.drop ((r % T) * (N / T))).take (N / T)))
      (fun kv hkv => by simp only [hslice kv.2 (hb kv hkv)])
    have hmn := List.map_congr_left (l := d.non_tensor_batch)
      (f := fun kv : String × List Int => (kv.1, sliceChunk T (r % T) kv.2))
      (g := fun kv : String × List Int =>
        (kv.1, (kv.2.drop ((r % T) * (N / T))).take (N / T)))
      (fun kv hkv => by simp only [hslice kv.2 (hn kv hkv)])
    rw [hmb, hmn]
  · intro kv hkv
    by_cases hT1 : 1 < T
    · simp only [postprocess_data, gt_iff_lt, hT1, if_true, DataProto.chunkAt] at hkv
      obtain ⟨kv0, hkv0, rfl⟩ := List.mem_map.mp hkv
      exact hslicelen kv0.2 (hb kv0 hkv0)
    · have h1 : T = 1 := by omega
      subst h1
      simp only [postprocess_data, gt_iff_lt, lt_self_iff_false, if_false] at hkv
      rw [Nat.div_one]
      exact hb kv hkv
  · intro kv hkv
    by_cases hT1 : 1 < T
    · simp only [postprocess_data, gt_iff_lt, hT1, if_true, DataProto.chunkAt] at hkv
      obtain ⟨kv0, hkv0, rfl⟩ := List.mem_map.mp hkv
      exact hslicelen kv0.2 (hn kv0 hkv0)
    · have h1 : T = 1 := by omega
      subst h1
      simp only [postprocess_data, gt_iff_lt, lt_self_iff_false, if_false] at hkv
      rw [Nat.div_one]
      exact hn kv hkv

/-- C4 witness: the 4-row gathered example, `T = 2`, global rank `r = 1`:
the second half of every field is kept, 2 rows per field. -/
theorem c4_witness :
    postprocess_data 1 1 exampleGathered = exampleGathered ∧
    (1 < 2 → postprocess_data 2 1 exampleGathered =
      { device := exampleGathered.device
        batch := exampleGathered.batch.map (fun kv =>
          (kv.1, (kv.2.drop ((1 % 2) * (4 / 2))).take (4 / 2)))
        non_tensor_batch := exampleGathered.non_tensor_batch.map (fun kv =>
          (kv.1, (kv.2.drop ((1 % 2) * (4 / 2))).take (4 / 2))) }) ∧
    (∀ kv ∈ (postprocess_data 2 1 exampleGathered).batch, kv.2.length = 4 / 2) ∧
    (∀ kv ∈ (postprocess_data 2 1 exampleGathered).non_tensor_batch, kv.2.length = 4 / 2) :=
  c4_postprocess_select 2 4 1 exampleGathered (by decide) (by decide) (by decide) (by decide)

/-- C10: the non-tensor fields returned by `preprocess_data` carry exactly
the calling rank's own keys (a key present only on other ranks is
dropped); if some rank's gathered non-tensor mapping lacks one of the
calling rank's keys, `preprocess_data` errors (`none`); and when all
ranks hold identical non-tensor keys, the non-tensor gather cannot hit
that error. -/
theorem c10_non_tensor_key_safety (all : List DataProto) (own res : DataProto) :
    (preprocess_data all own = some res →
      res.non_tensor_batch.map Prod.fst = own.non_tensor_batch.map Prod.fst) ∧
    ((∃ kv ∈ own.non_tensor_batch, ∃ d ∈ all, dictLookup d.non_tensor_batch kv.1 = none) →
      preprocess_data all own = none) ∧
    ((∀ d ∈ all, d.non_tensor_batch.map Prod.fst = own.non_tensor_batch.map Prod.fst) →
      (all_gather_non_tensor (all.map (·.non_tensor_batch)) own.non_tensor_batch).isSome) := by
  refine ⟨?_, ?_, ?_⟩
  · intro hres
    unfold preprocess_data allgather_dict_tensors all_gather_non_tensor at hres
    cases hg1 : gatherDict (all.map (·.batch)) own.batch with
    | none => rw [hg1] at hres; exact absurd hres (by simp)
    | some b =>
      rw [hg1] at hres
      cases hg2 : gatherDict (all.map (·.non_tensor_batch)) own.non_tensor_batch with
      | none => rw [hg2] at hres; exact absurd hres (by simp)
      | some nb =>
        rw [hg2] at hres
        injection hres with hres'
        subst hres'
        exact gatherDict_keys (all.map (·.non_tensor_batch)) own.non_tensor_batch nb hg2
  · intro hmiss
    obtain ⟨kv, hkv, d, hd, hnone⟩ := hmiss
    have hgnone : gatherDict (all.map (·.non_tensor_batch)) own.non_tensor_batch = none :=
      gatherDict_none_of_missing (all.map (·.non_tensor_batch)) own.non_tensor_batch
        ⟨kv, hkv, d.non_tensor_batch, List.mem_map_of_mem (·.non_tensor_batch) hd, hnone⟩
    unfold preprocess_data allgather_dict_tensors all_gather_non_tensor
    cases hg1 : gatherDict (all.map (·.batch)) own.batch <;> simp [hg1, hgnone]
  · intro hkeys
    have hsome : ∀ kv ∈ own.non_tensor_batch, ∀ d ∈ all.map (·.non_tensor_batch),
        (dictLookup d kv.1).isSome := by
      intro kv hkv d hd
      obtain ⟨d', hd', rfl⟩ := List.mem_map.mp hd
      apply dictLookup_isSome_of_mem_keys
      rw [hkeys d' hd']
      exact List.mem_map_of_mem Prod.fst hkv
    rw [all_gather_non_tensor,
      gatherDict_eq_map (all.map (·.non_tensor_batch)) own.non_tensor_batch hsome]
    rfl

/-- A mesh-configured manager whose training snapshot matches the live
register is a fixed point of one non-failing enter/exit cycle. -/
lemma cycle_fixed (wt : Dict Int) (m : Manager) (w : World) (u g : Nat)
    (hdm : m.device_mesh = some u) (hgen : m.gen_random_states = some g)
    (htorch : m.torch_random_states = w.rng) :
    cycle wt (m, w) = (m, w) := by
  cases m with
  | mk dm t gs =>
    simp only [Manager.device_mesh] at hdm
    simp only [Manager.gen_random_states] at hgen
    simp only [Manager.torch_random_states] at htorch
    subst hdm hgen htorch
    simp [cycle, enter_run, exit_run]

/-- Iterating a fixed point. -/
lemma cycles_fixed (wt : Dict Int) (mw : Manager × World) (hfix : cycle wt mw = mw) :
    ∀ n, cycles wt n mw = mw
  | 0 => rfl
  | n + 1 => by rw [cycles, hfix, cycles_fixed wt mw hfix n]

/-- C5: with a multi-rank data-parallel unit configured, `n` complete
enter/exit cycles with no random draws in generation mode and no failing
exit step leave the manager and the live RNG register exactly as after
zero cycles; in particular the live register still holds the training
random state captured at construction. -/
theorem c5_rng_roundtrip (n u : Nat) (w : World) (wt : Dict Int) :
    cycles wt n (init_manager (some u) w) = init_manager (some u) w ∧
    (cycles wt n (init_manager (some u) w)).2.rng = w.rng := by
  have hfix : cycle wt (init_manager (some u) w) = init_manager (some u) w := by
    apply cycle_fixed wt _ _ u (manual_seed_state (gen_seed u)) <;> simp [init_manager]
  refine ⟨cycles_fixed wt _ hfix n, ?_⟩
  rw [cycles_fixed wt _ hfix n]
  simp [init_manager]

/-- C6: the generation seed installed at construction is the data-parallel
unit local rank plus the fixed offset 1000; distinct unit ranks get
distinct seeds, the seeds of unit ranks 0, 1, 2, 3 are pairwise distinct,
and `__init__` derives the generation snapshot from exactly that seed. -/
theorem c6_seed_distinct (u1 u2 : Nat) (w : World) (h : u1 ≠ u2) :
    gen_seed u1 ≠ gen_seed u2 ∧
    ([0, 1, 2, 3].map gen_seed).Nodup ∧
    (init_manager (some u1) w).1.gen_random_states = some (manual_seed_state (gen_seed u1)) := by
  refine ⟨?_, by decide, by simp [init_manager]⟩
  intro hc
  exact h (by simpa [gen_seed] using hc)

/-- C6 witness: unit ranks 0 and 1. -/
theorem c6_witness :
    gen_seed 0 ≠ gen_seed 1 ∧
    ([0, 1, 2, 3].map gen_seed).Nodup ∧
    (init_manager (some 0) ⟨7⟩).1.gen_random_states = some (manual_seed_state (gen_seed 0)) :=
  c6_seed_distinct 0 1 ⟨7⟩ (by decide)

/-- C7: with no device mesh configured, construction leaves the
generation-state slot unset and the live register untouched, and the
enter/exit protocols run to completion without any RNG snapshot or
restore: manager and world are returned unchanged and no RNG-switch event
appears in either trace. -/
theorem c7_no_mesh_no_rng (w : World) (wt : Dict Int) :
    (init_manager none w).1.gen_random_states = none ∧
    (init_manager none w).2 = w ∧
    (enter_run wt (init_manager none w).1 w).1 = (init_manager none w).1 ∧
    (enter_run wt (init_manager none w).1 w).2.1 = w ∧
    Event.rngSwap ∉ (enter_run wt (init_manager none w).1 w).2.2 ∧
    (exit_run false false false (init_manager none w).1 w).raised = false ∧
    (exit_run false false false (init_manager none w).1 w).manager = (init_manager none w).1 ∧
    (exit_run false false false (init_manager none w).1 w).world = w ∧
    Event.rngSwap ∉ (exit_run false false false (init_manager none w).1 w).events := by
  refine ⟨rfl, rfl, rfl, rfl, ?_, rfl, rfl, rfl, ?_⟩ <;> simp [init_manager, enter_run, exit_run]

/-- C8: in every run of the enter protocol, the weight mapping is released
(`del actor_weights`) and cache reclamation requested before `__enter__`
returns, and both happen strictly before any switch to the generation
random state: whenever the trace is split at an RNG-switch event, the
release and the reclamation are already in the prefix. -/
theorem c8_release_before_rng_switch (wt : Dict Int) (m : Manager) (w : World) :
    Event.delWeights ∈ (enter_run wt m w).2.2 ∧
    Event.emptyCache ∈ (enter_run wt m w).2.2 ∧
    ∀ pre suf, (enter_run wt m w).2.2 = pre ++ Event.rngSwap :: suf →
      Event.delWeights ∈ pre ∧ Event.emptyCache ∈ pre := by
  cases hdm : m.device_mesh with
  | none =>
    refine ⟨by simp [enter_run, hdm], by simp [enter_run, hdm], ?_⟩
    intro pre suf hsplit
    simp only [enter_run, hdm] at hsplit
    have : Event.rngSwap ∈ pre ++ Event.rngSwap :: suf :=
      List.mem_append_right pre (List.mem_cons_self _ _)
    rw [← hsplit] at this
    simp at this
  | some u =>
    refine ⟨by simp [enter_run, hdm], by simp [enter_run, hdm], ?_⟩
    intro pre suf hsplit
    simp only [enter_run, hdm] at hsplit
    obtain ⟨hpre, _⟩ := append_singleton_eq
      [Event.stateDict (wt.map Prod.fst), Event.wakeUp, Event.loadWeights (wt.map Prod.fst),
        Event.delWeights, Event.emptyCache] pre suf Event.rngSwap (by simp) hsplit
    rw [hpre]
    simp

/-- C9: the weight mapping handed to the inference engine's load call is
exactly the mapping the training module's state-dict extraction produced:
the load event carries precisely the extracted parameter names, any load
event in the trace carries exactly those names, and (keys of a dict being
unique) every parameter name appears exactly once. -/
theorem c9_load_exact_names (wt : Dict Int) (m : Manager) (w : World)
    (hnd : (wt.map Prod.fst).Nodup) :
    Event.stateDict (wt.map Prod.fst) ∈ (enter_run wt m w).2.2 ∧
    Event.loadWeights (wt.map Prod.fst) ∈ (enter_run wt m w).2.2 ∧
    (∀ ns, Event.loadWeights ns ∈ (enter_run wt m w).2.2 → ns = wt.map Prod.fst) ∧
    (∀ k ∈ wt.map Prod.fst, (wt.map Prod.fst).count k = 1) := by
  refine ⟨?_, ?_, ?_, fun k hk => List.count_eq_one_of_mem hnd hk⟩ <;>
    cases hdm : m.device_mesh <;> simp [enter_run, hdm]

/-- C9 witness: a two-parameter state dict is handed over verbatim. -/
theorem c9_witness :
    Event.stateDict (([("a", (1 : Int)), ("b", 2)] : Dict Int).map Prod.fst) ∈
      (enter_run [("a", (1 : Int)), ("b", 2)] ⟨none, 0, none⟩ ⟨0⟩).2.2 ∧
    Event.loadWeights (([("a", (1 : Int)), ("b", 2)] : Dict Int).map Prod.fst) ∈
      (enter_run [("a", (1 : Int)), ("b", 2)] ⟨none, 0, none⟩ ⟨0⟩).2.2 ∧
    (∀ ns, Event.loadWeights ns ∈ (enter_run [("a", (1 : Int)), ("b", 2)] ⟨none, 0, none⟩ ⟨0⟩).2.2 →
      ns = ([("a", (1 : Int)), ("b", 2)] : Dict Int).map Prod.fst) ∧
    (∀ k ∈ ([("a", (1 : Int)), ("b", 2)] : Dict Int).map Prod.fst,
      (([("a", (1 : Int)), ("b", 2)] : Dict Int).map Prod.fst).count k = 1) :=
  c9_load_exact_names [("a", (1 : Int)), ("b", 2)] ⟨none, 0, none⟩ ⟨0⟩ (by decide)

/-- C2 counterexample: a multi-rank data-parallel unit is configured
(`device_mesh = some 0`) and the first exit step
(`inference_engine.sleep`) raises; the random-state restoration does NOT
execute — no RNG-switch event occurs, and the live register and the
manager's snapshot slots are left untouched — contradicting the claim
that the restoration still executes before the error propagates. -/
theorem c2_counterexample :
    (exit_run true false false ⟨some 0, 7, some 1000⟩ ⟨42⟩).raised = true ∧
    Event.rngSwap ∉ (exit_run true false false ⟨some 0, 7, some 1000⟩ ⟨42⟩).events ∧
    (exit_run true false false ⟨some 0, 7, some 1000⟩ ⟨42⟩).world = ⟨42⟩ ∧
    (exit_run true false false ⟨some 0, 7, some 1000⟩ ⟨42⟩).manager = ⟨some 0, 7, some 1000⟩ := by
  decide

/-- C2 (amended): with a multi-rank data-parallel unit configured, the
random-state restoration in `__exit__` executes exactly in the executions
where the earlier exit steps (engine sleep, restoring trainable mode,
cache reclamation) all complete without raising; if any earlier step
raises, the restoration is skipped and the error propagates with the
live register and the manager unchanged. -/
theorem c2_exit_restore_only_on_success (f1 f2 f3 : Bool) (m : Manager) (w : World) (u : Nat)
    (hdm : m.device_mesh = some u) :
    ((f1 || f2 || f3) = false →
      (exit_run f1 f2 f3 m w).raised = false ∧
      Event.rngSwap ∈ (exit_run f1 f2 f3 m w).events ∧
      (exit_run f1 f2 f3 m w).world.rng = m.torch_random_states ∧
      (exit_run f1 f2 f3 m w).manager.gen_random_states = some w.rng) ∧
    ((f1 || f2 || f3) = true →
      (exit_run f1 f2 f3 m w).raised = true ∧
      Event.rngSwap ∉ (exit_run f1 f2 f3 m w).events ∧
      (exit_run f1 f2 f3 m w).world = w ∧
      (exit_run f1 f2 f3 m w).manager = m) := by
  cases m with
  | mk dm t gs =>
    simp only [Manager.device_mesh] at hdm
    subst hdm
    cases f1 <;> cases f2 <;> cases f3 <;> simp [exit_run]

/-- C2 amended-claim witness: sleep raises, restoration skipped. -/
theorem c2_amended_witness :
    ((true || false || false) = false →
      (exit_run true false false ⟨some 0, 7, some 1000⟩ ⟨42⟩).raised = false ∧
      Event.rngSwap ∈ (exit_run true false false ⟨some 0, 7, some 1000⟩ ⟨42⟩).events ∧
      (exit_run true false false ⟨some 0, 7, some 1000⟩ ⟨42⟩).world.rng =
        (⟨some 0, 7, some 1000⟩ : Manager).torch_random_states ∧
      (exit_run true false false ⟨some 0, 7, some 1000⟩ ⟨42⟩).manager.gen_random_states =
        some (⟨42⟩ : World).rng) ∧
    ((true || false || false) = true →
      (exit_run true false false ⟨some 0, 7, some 1000⟩ ⟨42⟩).raised = true ∧
      Event.rngSwap ∉ (exit_run true false false ⟨some 0, 7, some 1000⟩ ⟨42⟩).events ∧
      (exit_run true false false ⟨some 0, 7, some 1000⟩ ⟨42⟩).world = ⟨42⟩ ∧
      (exit_run true false false ⟨some 0, 7, some 1000⟩ ⟨42⟩).manager = ⟨some 0, 7, some 1000⟩) :=
  c2_exit_restore_only_on_success true false false ⟨some 0, 7, some 1000⟩ ⟨42⟩ 0 rfl

end FSDPVLLM
